import Mathlib

/-!
Shallow embedding of the column-layout core of `pls` (`src/pls/table.py`).

The module-level inputs of the Python code (`args.details`, `args.icon`,
`args.no_align`, `args.export`, `sys.platform`, `state.is_git_managed`) are
collected into an explicit `Config` record; the functions of `table.py`
become pure Lean functions of that record.
-/

/-- The icon-type enum (`pls.enums.icon_type.IconType`); `get_columns` only
tests whether the value differs from `NONE`. -/
inductive IconType where
  | none
  | nerd
  | emoji
deriving DecidableEq

/-- The configuration read by `table.py` from module-level globals:
`args.details` (an optional list of detail tokens, `"+"` being the wildcard),
`args.icon`, `args.no_align`, `args.export`, `sys.platform` and
`state.is_git_managed`. -/
structure Config where
  details : Option (List String)
  icon : IconType
  no_align : Bool
  export_dest : Option String
  platform : String
  is_git_managed : Bool

/-- The optional render attributes of a column spec (`justify`, `width`). -/
structure ColumnAttrs where
  justify : Option String
  width : Option Nat
deriving DecidableEq

/-- A column spec: display name plus render attributes
(`pls.models.col_spec.ColumnSpec`). -/
structure ColumnSpec where
  name : String
  attrs : ColumnAttrs
deriving DecidableEq

/-- Attributes left at their defaults (no `attrs` entry in the dict). -/
def noAttrs : ColumnAttrs := ⟨none, none⟩

/-- `column_spec_map`: the mapping of column keys to column specs.  The
`name` entry depends on `args.no_align` at construction time. -/
def column_spec_map (no_align : Bool) : List (String × ColumnSpec) :=
  [("spacer", ⟨" ", noAttrs⟩),
   ("inode", ⟨"inode", noAttrs⟩),
   ("links", ⟨"Link#", ⟨some "right", none⟩⟩),
   ("type", ⟨"", noAttrs⟩),
   ("perms", ⟨"Permissions", noAttrs⟩),
   ("user", ⟨"User", noAttrs⟩),
   ("group", ⟨"Group", noAttrs⟩),
   ("size", ⟨"Size", ⟨some "right", none⟩⟩),
   ("ctime", ⟨"Created at", noAttrs⟩),
   ("mtime", ⟨"Modified at", noAttrs⟩),
   ("atime", ⟨"Accessed at", noAttrs⟩),
   ("git", ⟨"Git", noAttrs⟩),
   ("icon", ⟨"", ⟨none, some 2⟩⟩),
   ("name", ⟨if no_align then "Name" else " Name", noAttrs⟩)]

/-- `column_in_details(col_name)`: a column is requested if its key occurs in
`args.details` or the wildcard token `"+"` does. -/
def column_in_details (details : List String) (col_name : String) : Bool :=
  details.contains col_name || details.contains "+"

/-- Python truthiness of `args.details` (the `if args.details:` test in
`get_columns`): `None` and the empty list are falsy. -/
def details_enabled (cfg : Config) : Bool :=
  match cfg.details with
  | some (_ :: _) => true
  | _ => false

/-- The token list held by `args.details` (only consulted when it is truthy). -/
def details_list (cfg : Config) : List String :=
  cfg.details.getD []

/-- The candidate detail column groups built in `get_columns`:
the four fixed groups, with `["user", "group"]` inserted at index 2 when the
platform is not `win32`, and `["git"]` appended when the directory is
git-managed. -/
def detail_col_groups (cfg : Config) : List (List String) :=
  let col_groups :=
    [["inode", "links"], ["type", "perms"], ["size"], ["ctime", "mtime", "atime"]]
  let col_groups :=
    if cfg.platform ≠ "win32" then List.insertIdx 2 ["user", "group"] col_groups
    else col_groups
  if cfg.is_git_managed then col_groups ++ [["git"]] else col_groups

/-- The final name group: `["name"]`, with `"icon"` prepended when icons are
enabled (`args.icon != IconType.NONE`). -/
def name_group (cfg : Config) : List String :=
  if cfg.icon ≠ IconType.none then ["icon", "name"] else ["name"]

/-- `selected_col_groups` as built in `get_columns`: when details are truthy,
each candidate group filtered through `column_in_details` (empty results are
kept as empty groups, exactly as the Python list does); then the name group. -/
def selected_col_groups (cfg : Config) : List (List String) :=
  (if details_enabled cfg then
    (detail_col_groups cfg).map
      (fun g => g.filter (fun col => column_in_details (details_list cfg) col))
  else []) ++ [name_group cfg]

/-- The flattening loop of `get_columns`: each group at an index other than
the last gets `"spacer"` appended, groups with zero chosen columns are
skipped, and everything is concatenated. -/
def flattenCols : List (List String) → List String
  | [] => []
  | [g] => g
  | g :: g2 :: rest =>
      (if g.isEmpty then [] else g ++ ["spacer"]) ++ flattenCols (g2 :: rest)

/-- `get_columns()`: the ordered list of column keys to show. -/
def get_columns (cfg : Config) : List String :=
  flattenCols (selected_col_groups cfg)

/-- The observable skeleton of the Rich `Table` built in `get_table` /
`write_output`: header visibility, declared columns, and data rows. -/
structure RichTable where
  show_header : Bool
  columns : List ColumnSpec
  rows : List (List String)

/-- The column-declaration loop of `get_table`: keys found in
`column_spec_map` yield an `add_column` call with the spec's name and
attributes; keys not found are skipped (`if col is not None`). -/
def declared_columns (no_align : Bool) (keys : List String) : List ColumnSpec :=
  keys.filterMap (fun k => (column_spec_map no_align).lookup k)

/-- `get_table()`: header shown iff `args.details is not None`; columns
declared from `get_columns()` via `column_spec_map`. -/
def get_table (cfg : Config) : RichTable :=
  ⟨cfg.details.isSome, declared_columns cfg.no_align (get_columns cfg), []⟩

/-- The row assembled in `write_output` from one node's `table_row` dict:
`[data.get(col, "") for col in get_columns()]`. -/
def make_cells (cfg : Config) (data : List (String × String)) : List String :=
  (get_columns cfg).map (fun col => ((data.lookup col).getD ""))

/-- The rows added in `write_output`: nodes whose `table_row` is `None`
contribute no row, all others contribute their assembled cells in order. -/
def write_rows (cfg : Config) (all_nodes : List (Option (List (String × String)))) :
    List (List String) :=
  all_nodes.filterMap (fun d => d.map (fun data => make_cells cfg data))

/-- `write_output`: the final table printed to the console. -/
def write_output (cfg : Config) (all_nodes : List (Option (List (String × String)))) :
    RichTable :=
  ⟨(get_table cfg).show_header, (get_table cfg).columns, write_rows cfg all_nodes⟩

/-! ### Helper lemmas about the flattening loop -/

/-- Bridge between `List.contains` and membership. -/
lemma contains_true_of_mem {l : List String} {a : String} (h : a ∈ l) :
    l.contains a = true :=
  List.elem_iff.mpr h

/-- Bridge between `List.contains` and non-membership. -/
lemma contains_false_of_not_mem {l : List String} {a : String} (h : a ∉ l) :
    l.contains a = false := by
  cases hc : l.contains a with
  | false => rfl
  | true => exact absurd (List.elem_iff.mp hc) h

/-- Unfolding of `flattenCols` on a cons with nonempty tail. -/
lemma flattenCols_cons (g : List String) {gs : List (List String)} (h : gs ≠ []) :
    flattenCols (g :: gs) =
      (if g.isEmpty then [] else g ++ ["spacer"]) ++ flattenCols gs := by
  cases gs with
  | nil => exact absurd rfl h
  | cons g2 rest => rfl

/-- The flattened list is nonempty when the last group is nonempty. -/
lemma flattenCols_ne_nil (pre : List (List String)) (g : List String) (hg : g ≠ []) :
    flattenCols (pre ++ [g]) ≠ [] := by
  induction pre with
  | nil => simpa [flattenCols] using hg
  | cons p pre ih =>
      rw [List.cons_append, flattenCols_cons p (by simp)]
      intro hnil
      exact ih (List.append_eq_nil.mp hnil).2

/-- A list with no `"spacer"` satisfies the no-adjacent-spacers chain. -/
lemma chain'_of_no_spacer {l : List String} (h : "spacer" ∉ l) :
    List.Chain' (fun a b => ¬(a = "spacer" ∧ b = "spacer")) l := by
  induction l with
  | nil => simp
  | cons a l ih =>
      rw [List.chain'_cons']
      refine ⟨fun y _ hab => ?_, ih (fun hm => h (List.mem_cons_of_mem a hm))⟩
      exact h (hab.1 ▸ List.mem_cons_self a l)

/-- `l.getLast? = some x → x ∈ l` (helper). -/
lemma mem_of_getLast?_eq {l : List String} {x : String} (h : l.getLast? = some x) :
    x ∈ l := by
  obtain ⟨_, rfl⟩ := List.mem_getLast?_eq_getLast (Option.mem_def.mpr h)
  exact List.getLast_mem _

/-- Structure of the flattened output when every group is spacer-free and the
last group is nonempty: no spacer at the head, none at the end, and no two
adjacent spacers. -/
lemma flattenCols_spacer_facts :
    ∀ (pre : List (List String)) (g : List String),
      (∀ x ∈ pre, "spacer" ∉ x) → "spacer" ∉ g → g ≠ [] →
      (flattenCols (pre ++ [g])).head? ≠ some "spacer" ∧
      (flattenCols (pre ++ [g])).getLast? ≠ some "spacer" ∧
      List.Chain' (fun a b => ¬(a = "spacer" ∧ b = "spacer"))
        (flattenCols (pre ++ [g])) := by
  intro pre
  induction pre with
  | nil =>
      intro g _ hg hne
      rw [List.nil_append]
      refine ⟨fun hh => ?_, fun hl => ?_, chain'_of_no_spacer hg⟩
      · exact hg (List.mem_of_mem_head? (Option.mem_def.mpr hh))
      · exact hg (mem_of_getLast?_eq hl)
  | cons p pre ih =>
      intro g hpre hg hne
      have hp : "spacer" ∉ p := hpre p (List.mem_cons_self p pre)
      have hpre' : ∀ x ∈ pre, "spacer" ∉ x :=
        fun x hx => hpre x (List.mem_cons_of_mem p hx)
      obtain ⟨ihh, ihl, ihc⟩ := ih g hpre' hg hne
      have hTne : flattenCols (pre ++ [g]) ≠ [] := flattenCols_ne_nil pre g hne
      rw [List.cons_append, flattenCols_cons p (by simp)]
      cases p with
      | nil =>
          simp only [List.isEmpty_nil, if_true, List.nil_append]
          exact ⟨ihh, ihl, ihc⟩
      | cons a p' =>
          have ha : a ≠ "spacer" := fun h => hp (h ▸ List.mem_cons_self a p')
          simp only [List.isEmpty_cons, Bool.false_eq_true, if_false]
          refine ⟨?_, ?_, ?_⟩
          · simp [ha]
          · rw [List.getLast?_append_of_ne_nil _ hTne]
            exact ihl
          · refine List.Chain'.append ?_ ihc ?_
            · refine List.Chain'.append (chain'_of_no_spacer hp) (by simp) ?_
              intro x hx _ _
              have hxmem : x ∈ a :: p' :=
                mem_of_getLast?_eq (Option.mem_def.mp hx)
              intro hc
              exact hp (hc.1 ▸ hxmem)
            · intro x hx y hy
              have hy' : y ≠ "spacer" := by
                intro hEq
                apply ihh
                rw [← hEq]
                exact Option.mem_def.mp hy
              exact fun hc => hy' hc.2

/-- Membership in the flattened list, for keys other than `"spacer"`:
exactly the members of the groups. -/
lemma mem_flattenCols {x : String} (hx : x ≠ "spacer") :
    ∀ groups : List (List String), (x ∈ flattenCols groups ↔ ∃ g ∈ groups, x ∈ g) := by
  intro groups
  induction groups with
  | nil => simp [flattenCols]
  | cons g gs ih =>
      cases gs with
      | nil => simp [flattenCols]
      | cons g2 rest =>
          rw [flattenCols_cons g (by simp)]
          cases g with
          | nil => simp [ih]
          | cons a g' =>
              simp only [List.isEmpty_cons, Bool.false_eq_true, if_false]
              simp [ih, hx, List.mem_append, or_assoc]

/-- Every key of the program occurring in some candidate or name group. -/
def all_column_keys : List String :=
  ["inode", "links", "type", "perms", "user", "group", "size",
   "ctime", "mtime", "atime", "git", "icon", "name"]

/-- Every element of every candidate detail group is a known column key. -/
lemma detail_col_groups_elems (cfg : Config) :
    ∀ g ∈ detail_col_groups cfg, ∀ k ∈ g, k ∈ all_column_keys := by
  intro g hg k hk
  unfold detail_col_groups at hg
  by_cases hp : cfg.platform = "win32" <;>
    by_cases hgit : cfg.is_git_managed = true <;>
      simp only [hp, hgit, ne_eq, not_true_eq_false, not_false_eq_true, if_true,
        if_false, List.insertIdx_succ_cons, List.insertIdx_zero] at hg <;>
      fin_cases hg <;> fin_cases hk <;> decide

/-- The name group is `["name"]` or `["icon", "name"]`. -/
lemma name_group_cases (cfg : Config) :
    name_group cfg = ["name"] ∨ name_group cfg = ["icon", "name"] := by
  unfold name_group
  split
  · exact Or.inr rfl
  · exact Or.inl rfl

/-- The name group is never empty. -/
lemma name_group_ne_nil (cfg : Config) : name_group cfg ≠ [] := by
  rcases name_group_cases cfg with h | h <;> simp [h]

/-- Every element of every selected group is a known column key. -/
lemma selected_elems (cfg : Config) :
    ∀ g ∈ selected_col_groups cfg, ∀ k ∈ g, k ∈ all_column_keys := by
  intro g hg k hk
  unfold selected_col_groups at hg
  rcases List.mem_append.mp hg with h | h
  · by_cases hd : details_enabled cfg = true
    · rw [if_pos hd] at h
      obtain ⟨cand, hcand, rfl⟩ := List.mem_map.mp h
      exact detail_col_groups_elems cfg cand hcand k (List.mem_of_mem_filter hk)
    · rw [if_neg hd] at h
      exact absurd h (List.not_mem_nil g)
  · have hgname : g = name_group cfg := by simpa using h
    subst hgname
    rcases name_group_cases cfg with hng | hng <;> rw [hng] at hk <;>
      fin_cases hk <;> decide

/-- `"spacer"` is not an element of any selected group. -/
lemma selected_spacer_free (cfg : Config) :
    ∀ g ∈ selected_col_groups cfg, "spacer" ∉ g :=
  fun g hg hsp => absurd (selected_elems cfg g hg "spacer" hsp) (by decide)

/-- From the head/last/chain facts, every spacer occurrence sits strictly
between two non-spacer entries. -/
lemma spacer_neighbors {l : List String}
    (hh : l.head? ≠ some "spacer") (hl : l.getLast? ≠ some "spacer")
    (hc : List.Chain' (fun a b => ¬(a = "spacer" ∧ b = "spacer")) l) :
    ∀ (i : ℕ) (h : i < l.length), l.get ⟨i, h⟩ = "spacer" →
      0 < i ∧ i + 1 < l.length ∧
      l.get ⟨i - 1, by omega⟩ ≠ "spacer" ∧
      ∀ (h2 : i + 1 < l.length), l.get ⟨i + 1, h2⟩ ≠ "spacer" := by
  intro i h hsp
  have hchain := List.chain'_iff_get.mp hc
  have h0 : 0 < i := by
    rcases Nat.eq_zero_or_pos i with rfl | hpos
    · exfalso
      apply hh
      rw [List.head?_eq_getElem?, List.getElem?_eq_getElem h]
      exact congrArg some ((List.get_eq_getElem l ⟨0, h⟩).symm.trans hsp)
    · exact hpos
  have hlt : i + 1 < l.length := by
    rcases Nat.lt_or_ge (i + 1) l.length with hlt | hge
    · exact hlt
    · exfalso
      have hi : i = l.length - 1 := by omega
      apply hl
      rw [List.getLast?_eq_getElem?,
        List.getElem?_eq_getElem (show l.length - 1 < l.length by omega)]
      refine congrArg some ?_
      have hfin : (⟨l.length - 1, by omega⟩ : Fin l.length) = ⟨i, h⟩ :=
        Fin.mk_eq_mk.mpr (by omega)
      rw [← List.get_eq_getElem l ⟨l.length - 1, by omega⟩, hfin]
      exact hsp
  refine ⟨h0, hlt, ?_, ?_⟩
  · intro hsp0
    apply hchain (i - 1) (by omega)
    refine ⟨hsp0, ?_⟩
    have hfin : (⟨i - 1 + 1, by omega⟩ : Fin l.length) = ⟨i, h⟩ :=
      Fin.mk_eq_mk.mpr (by omega)
    rw [hfin]
    exact hsp
  · intro h2 hsp2
    exact hchain i (by omega) ⟨hsp, hsp2⟩

/-! ### Claim theorems -/

/-- C4: for every configuration, in the sequence returned by `get_columns` the
first key is never `"spacer"`, the last key is never `"spacer"`, no two
adjacent keys are both `"spacer"`, and every `"spacer"` occurrence has a
non-spacer key immediately before it and immediately after it. -/
theorem C4_spacer_invariants (cfg : Config) :
    (get_columns cfg).head? ≠ some "spacer" ∧
    (get_columns cfg).getLast? ≠ some "spacer" ∧
    List.Chain' (fun a b => ¬(a = "spacer" ∧ b = "spacer")) (get_columns cfg) ∧
    ∀ (i : ℕ) (h : i < (get_columns cfg).length),
      (get_columns cfg).get ⟨i, h⟩ = "spacer" →
        0 < i ∧ i + 1 < (get_columns cfg).length ∧
        (get_columns cfg).get ⟨i - 1, by omega⟩ ≠ "spacer" ∧
        ∀ (h2 : i + 1 < (get_columns cfg).length),
          (get_columns cfg).get ⟨i + 1, h2⟩ ≠ "spacer" := by
  have hpre : ∀ x ∈ (if details_enabled cfg then
      (detail_col_groups cfg).map
        (fun g => g.filter (fun col => column_in_details (details_list cfg) col))
    else []), "spacer" ∉ x :=
    fun x hx => selected_spacer_free cfg x (List.mem_append_left _ hx)
  have hname : "spacer" ∉ name_group cfg :=
    selected_spacer_free cfg _ (List.mem_append_right _ (List.mem_singleton.mpr rfl))
  obtain ⟨h1, h2, h3⟩ :=
    flattenCols_spacer_facts _ (name_group cfg) hpre hname (name_group_ne_nil cfg)
  exact ⟨h1, h2, h3, spacer_neighbors h1 h2 h3⟩

/-- Witness for C4: in the all-details configuration the key at index 2 is a
spacer, and it has non-spacer neighbors on both sides. -/
theorem C4_spacer_invariants_witness :
    0 < 2 ∧
    2 + 1 < (get_columns ⟨some ["+"], IconType.none, false, none, "linux", false⟩).length ∧
    (get_columns ⟨some ["+"], IconType.none, false, none, "linux", false⟩).get
      ⟨2 - 1, by decide⟩ ≠ "spacer" ∧
    ∀ (h2 : 2 + 1 <
        (get_columns ⟨some ["+"], IconType.none, false, none, "linux", false⟩).length),
      (get_columns ⟨some ["+"], IconType.none, false, none, "linux", false⟩).get
        ⟨2 + 1, h2⟩ ≠ "spacer" :=
  (C4_spacer_invariants ⟨some ["+"], IconType.none, false, none, "linux", false⟩).2.2.2
    2 (by decide) (by decide)

/-- C5: when detail rendering is disabled (details falsy), the selector
returns no spacer and no detail keys: exactly `["name"]` without icons and
exactly `["icon", "name"]` with icons. -/
theorem C5_details_disabled (cfg : Config) (h : details_enabled cfg = false) :
    "spacer" ∉ get_columns cfg ∧
    (cfg.icon = IconType.none → get_columns cfg = ["name"]) ∧
    (cfg.icon ≠ IconType.none → get_columns cfg = ["icon", "name"]) := by
  have hcols : get_columns cfg = name_group cfg := by
    simp [get_columns, selected_col_groups, h, flattenCols]
  refine ⟨?_, ?_, ?_⟩
  · rw [hcols]
    rcases name_group_cases cfg with hng | hng <;> rw [hng] <;> decide
  · intro hi
    rw [hcols]
    unfold name_group
    rw [if_neg (by simp [hi])]
  · intro hi
    rw [hcols]
    unfold name_group
    rw [if_pos hi]

/-- Witness for C5 at a concrete configuration with `details = None`. -/
theorem C5_details_disabled_witness :
    "spacer" ∉ get_columns ⟨none, IconType.none, false, none, "linux", false⟩ ∧
    ((⟨none, IconType.none, false, none, "linux", false⟩ : Config).icon =
        IconType.none →
      get_columns ⟨none, IconType.none, false, none, "linux", false⟩ = ["name"]) ∧
    ((⟨none, IconType.none, false, none, "linux", false⟩ : Config).icon ≠
        IconType.none →
      get_columns ⟨none, IconType.none, false, none, "linux", false⟩ =
        ["icon", "name"]) :=
  C5_details_disabled ⟨none, IconType.none, false, none, "linux", false⟩ rfl

/-- C8: the selector is a pure function of the four configuration inputs it
reads (detail selection, icon mode, platform, version-control status): any
two configurations agreeing on those fields, whatever their other fields,
produce identical key sequences. -/
theorem C8_selector_pure (c1 c2 : Config) (h1 : c1.details = c2.details)
    (h2 : c1.icon = c2.icon) (h3 : c1.platform = c2.platform)
    (h4 : c1.is_git_managed = c2.is_git_managed) :
    get_columns c1 = get_columns c2 := by
  rcases c1 with ⟨d1, i1, n1, e1, p1, g1⟩
  rcases c2 with ⟨d2, i2, n2, e2, p2, g2⟩
  simp only at h1 h2 h3 h4
  subst h1
  subst h2
  subst h3
  subst h4
  rfl

/-- Witness for C8: identical selector inputs, different alignment and export
settings, identical output. -/
theorem C8_selector_pure_witness :
    get_columns ⟨some ["+"], IconType.none, false, none, "linux", false⟩ =
      get_columns ⟨some ["+"], IconType.none, true, some "out.html", "linux", false⟩ :=
  C8_selector_pure _ _ rfl rfl rfl rfl

/-- C10: every key the selector can return (including `"spacer"` and the
pseudo-columns) has an entry in `column_spec_map`, so the registry lookup of
`get_table` never returns `None` on selector output. -/
theorem C10_selected_keys_in_registry (cfg : Config) :
    ∀ k ∈ get_columns cfg, ((column_spec_map cfg.no_align).lookup k).isSome = true := by
  intro k hk
  by_cases hs : k = "spacer"
  · subst hs
    cases hb : cfg.no_align <;> decide
  · obtain ⟨g, hg, hkg⟩ := (mem_flattenCols hs (selected_col_groups cfg)).mp hk
    have hall : k ∈ all_column_keys := selected_elems cfg g hg k hkg
    fin_cases hall <;> cases hb : cfg.no_align <;> decide

/-- Witness for C10: the `"spacer"` key returned in the all-details
configuration is found in the registry. -/
theorem C10_selected_keys_in_registry_witness :
    ((column_spec_map (false : Bool)).lookup "spacer").isSome = true :=
  C10_selected_keys_in_registry ⟨some ["+"], IconType.none, false, none, "linux", false⟩
    "spacer" (by decide)

/-- C3 counterexample: when `args.details` is present but empty, the header is
shown (`details is not None`) although the selector treats detail rendering
as disabled (`if args.details:` is falsy), so "header shown iff detail
rendering is enabled" fails at that configuration. -/
theorem C3_counterexample :
    ¬(((get_table ⟨some [], IconType.none, false, none, "linux", false⟩).show_header
        = true) ↔
      (details_enabled ⟨some [], IconType.none, false, none, "linux", false⟩
        = true)) := by
  decide

/-- C3 amended: the header is shown iff `args.details` is not `None`; this
implies the header whenever the selector enables detail groups, but when the
selection is present and empty the header is shown while the selector treats
detail rendering as disabled. -/
theorem C3_header_iff_details_present (cfg : Config) :
    ((get_table cfg).show_header = cfg.details.isSome) ∧
    (details_enabled cfg = true → (get_table cfg).show_header = true) ∧
    (cfg.details = some [] →
      (get_table cfg).show_header = true ∧ details_enabled cfg = false) := by
  refine ⟨rfl, ?_, ?_⟩
  · intro h
    rcases hcase : cfg.details with _ | l
    · simp [details_enabled, hcase] at h
    · simp [get_table, hcase]
  · intro hcase
    exact ⟨by simp [get_table, hcase], by simp [details_enabled, hcase]⟩

/-- Witness for the amended C3 at the present-but-empty selection. -/
theorem C3_header_iff_details_present_witness :
    (get_table ⟨some [], IconType.none, false, none, "linux", false⟩).show_header
      = true ∧
    details_enabled ⟨some [], IconType.none, false, none, "linux", false⟩ = false :=
  (C3_header_iff_details_present
    ⟨some [], IconType.none, false, none, "linux", false⟩).2.2 rfl

/-- C6: for every present row-data mapping, the assembled row has exactly as
many cells as the selected key sequence, cell `i` renders key `i`, a key
missing from the mapping renders as the empty string, and such a row is
appended for the entry in `write_output`. -/
theorem C6_row_shape (cfg : Config) (data : List (String × String)) :
    (make_cells cfg data).length = (get_columns cfg).length ∧
    (∀ i : ℕ, (make_cells cfg data)[i]? =
      ((get_columns cfg)[i]?).map (fun col => ((data.lookup col).getD ""))) ∧
    (∀ i : ℕ, ∀ col : String, (get_columns cfg)[i]? = some col →
      data.lookup col = none → (make_cells cfg data)[i]? = some "") ∧
    (∀ pre post : List (Option (List (String × String))),
      write_rows cfg (pre ++ some data :: post) =
        write_rows cfg pre ++ make_cells cfg data :: write_rows cfg post) := by
  refine ⟨by simp [make_cells], ?_, ?_, ?_⟩
  · intro i
    exact List.getElem?_map _ _ _
  · intro i col hcol hnone
    rw [show (make_cells cfg data)[i]? =
        ((get_columns cfg)[i]?).map (fun col => ((data.lookup col).getD "")) from
      List.getElem?_map _ _ _, hcol]
    simp [hnone]
  · intro pre post
    simp [write_rows, List.filterMap_append, List.filterMap_cons]

/-- Witness for C6: key `"inode"` is selected at index 0 but missing from the
row data, so cell 0 renders as the empty string. -/
theorem C6_row_shape_witness :
    (make_cells ⟨some ["+"], IconType.none, false, none, "linux", false⟩
      [("name", "x")])[0]? = some "" :=
  (C6_row_shape ⟨some ["+"], IconType.none, false, none, "linux", false⟩
    [("name", "x")]).2.2.1 0 "inode" (by decide) (by decide)

/-- Helper for C9: when every key is found in the registry, the declared
column count equals the key count. -/
lemma declared_columns_full_length (n : Bool) :
    ∀ keys : List String,
      (∀ k2 ∈ keys, ((column_spec_map n).lookup k2).isSome = true) →
        (declared_columns n keys).length = keys.length := by
  intro keys
  induction keys with
  | nil => intro _; rfl
  | cons a keys ih =>
      intro hall
      obtain ⟨spec, hspec⟩ :=
        Option.isSome_iff_exists.mp (hall a (List.mem_cons_self a keys))
      have hstep : declared_columns n (a :: keys) = spec :: declared_columns n keys := by
        simp [declared_columns, List.filterMap_cons, hspec]
      rw [hstep, List.length_cons, List.length_cons,
        ih (fun k2 hk2 => hall k2 (List.mem_cons_of_mem a hk2))]

/-- C9 counterexample: a key absent from the registry yields no column at
all (the loop skips it), so the declared column count falls short of the key
count, refuting "unknown keys still yield a structurally present column". -/
theorem C9_counterexample :
    (column_spec_map false).lookup "bogus" = none ∧
    (declared_columns false ["bogus", "name"]).length ≠
      (["bogus", "name"] : List String).length := by
  decide

/-- C9 amended: for each key in order, a key found in the registry declares a
column with its display name and attributes, and a key absent from the
registry is silently skipped, declaring nothing; hence the skeleton's column
count is at most the key count, with equality exactly when every key is
found. -/
theorem C9_unknown_key_skipped (n : Bool) (k : String) (keys : List String) :
    (declared_columns n (k :: keys) =
      match (column_spec_map n).lookup k with
      | some spec => spec :: declared_columns n keys
      | none => declared_columns n keys) ∧
    (declared_columns n keys).length ≤ keys.length ∧
    ((∀ k2 ∈ keys, ((column_spec_map n).lookup k2).isSome = true) →
      (declared_columns n keys).length = keys.length) := by
  refine ⟨?_, ?_, declared_columns_full_length n keys⟩
  · cases h : (column_spec_map n).lookup k <;>
      simp [declared_columns, List.filterMap_cons, h]
  · exact List.length_filterMap_le _ _

/-- Witness for the amended C9: with the unknown key `"bogus"` consed on, the
declared columns are unchanged, and on the all-known remainder the count
matches. -/
theorem C9_unknown_key_skipped_witness :
    (declared_columns false ("bogus" :: ["name"]) =
      match (column_spec_map false).lookup "bogus" with
      | some spec => spec :: declared_columns false ["name"]
      | none => declared_columns false ["name"]) ∧
    (declared_columns false ["name"]).length = (["name"] : List String).length :=
  ⟨(C9_unknown_key_skipped false "bogus" ["name"]).1,
    (C9_unknown_key_skipped false "bogus" ["name"]).2.2 (by decide)⟩

/-- C1 counterexample: in the all-details, non-win32, no-git, no-icon
configuration, the code places `user, group` immediately BEFORE `size`
(`col_groups.insert(2, ...)` inserts before index 2, which holds `["size"]`),
so the spec's claimed sequence with `user, group` after `size` is not
returned. -/
theorem C1_counterexample :
    ("+" ∈ (["+"] : List String)) ∧ ("linux" : String) ≠ "win32" ∧
    get_columns ⟨some ["+"], IconType.none, false, none, "linux", false⟩ ≠
      ["inode", "links", "spacer", "type", "perms", "spacer", "size", "spacer",
       "user", "group", "spacer", "ctime", "mtime", "atime", "spacer", "name"] := by
  decide

/-- C1 amended: with the wildcard in the detail selection, on a non-win32
platform, with version control false and icons disabled, the selector returns
the full sequence with `[user, group]` immediately BEFORE `[size]`. -/
theorem C1_wildcard_full_layout (cfg : Config) (l : List String)
    (hd : cfg.details = some l) (hw : "+" ∈ l)
    (hp : cfg.platform ≠ "win32") (hg : cfg.is_git_managed = false)
    (hi : cfg.icon = IconType.none) :
    get_columns cfg =
      ["inode", "links", "spacer", "type", "perms", "spacer", "user", "group",
       "spacer", "size", "spacer", "ctime", "mtime", "atime", "spacer", "name"] := by
  rcases l with _ | ⟨a, l'⟩
  · exact absurd hw (by simp)
  · have hen : details_enabled cfg = true := by simp [details_enabled, hd]
    have hdl : details_list cfg = a :: l' := by simp [details_list, hd]
    have hw2 : "+" = a ∨ "+" ∈ l' := by simpa using hw
    simp [get_columns, selected_col_groups, hen, hdl, detail_col_groups, hp, hg,
      name_group, hi, column_in_details, hw2, List.insertIdx_succ_cons,
      List.insertIdx_zero, flattenCols]

/-- Witness for the amended C1 at the concrete all-details configuration. -/
theorem C1_wildcard_full_layout_witness :
    get_columns ⟨some ["+"], IconType.none, false, none, "linux", false⟩ =
      ["inode", "links", "spacer", "type", "perms", "spacer", "user", "group",
       "spacer", "size", "spacer", "ctime", "mtime", "atime", "spacer", "name"] :=
  C1_wildcard_full_layout ⟨some ["+"], IconType.none, false, none, "linux", false⟩
    ["+"] rfl (by decide) (by decide) rfl rfl

/-- C2 counterexample: with `details = ["size", "perms"]` and all other
toggles unset, `"type"` is filtered out (it is not in the selection and there
is no wildcard), so the claimed survival of the full `[type, perms]` group
fails. -/
theorem C2_counterexample :
    "type" ∉ get_columns ⟨some ["size", "perms"], IconType.none, false, none,
      "linux", false⟩ ∧
    get_columns ⟨some ["size", "perms"], IconType.none, false, none,
      "linux", false⟩ ≠
      ["type", "perms", "spacer", "size", "spacer", "name"] := by
  decide

/-- C2 amended: for the detail selection `["size", "perms"]` (no wildcard),
with version control false and icons disabled, only `perms` (not `type`)
survives from the `[type, perms]` group along with `size`, giving
`[perms, spacer, size, spacer, name]` on every platform: one spacer between
the two surviving groups and one before `name`. -/
theorem C2_partial_selection_layout (cfg : Config)
    (hd : cfg.details = some ["size", "perms"])
    (hg : cfg.is_git_managed = false) (hi : cfg.icon = IconType.none) :
    get_columns cfg = ["perms", "spacer", "size", "spacer", "name"] := by
  by_cases hp : cfg.platform = "win32" <;>
    simp [get_columns, selected_col_groups, details_enabled, hd, details_list,
      detail_col_groups, hp, hg, name_group, hi, column_in_details,
      List.insertIdx_succ_cons, List.insertIdx_zero, flattenCols]

/-- Witness for the amended C2 at the concrete `["size", "perms"]` selection. -/
theorem C2_partial_selection_layout_witness :
    get_columns ⟨some ["size", "perms"], IconType.none, false, none,
      "linux", false⟩ = ["perms", "spacer", "size", "spacer", "name"] :=
  C2_partial_selection_layout
    ⟨some ["size", "perms"], IconType.none, false, none, "linux", false⟩
    rfl rfl rfl

/-- C7: the key `"git"` appears in the selector's output iff detail rendering
is enabled (details truthy), the `git` column survives the detail filter
(explicitly requested or wildcard), and the directory is git-managed. -/
theorem C7_git_gating (cfg : Config) :
    "git" ∈ get_columns cfg ↔
      (details_enabled cfg = true ∧
       column_in_details (details_list cfg) "git" = true ∧
       cfg.is_git_managed = true) := by
  rw [get_columns, mem_flattenCols (by decide) (selected_col_groups cfg)]
  constructor
  · rintro ⟨g, hg, hgit⟩
    rcases List.mem_append.mp hg with h | h
    · by_cases hd : details_enabled cfg = true
      · rw [if_pos hd] at h
        obtain ⟨cand, hcand, rfl⟩ := List.mem_map.mp h
        have hgit' := List.mem_of_mem_filter hgit
        have hfil := List.of_mem_filter hgit
        refine ⟨hd, by simpa using hfil, ?_⟩
        by_cases hgm : cfg.is_git_managed = true
        · exact hgm
        · exfalso
          unfold detail_col_groups at hcand
          by_cases hplat : cfg.platform = "win32" <;>
            simp only [hplat, hgm, ne_eq, not_true_eq_false, not_false_eq_true,
              if_true, if_false, List.insertIdx_succ_cons,
              List.insertIdx_zero] at hcand <;>
            fin_cases hcand <;> revert hgit' <;> decide
      · rw [if_neg hd] at h
        exact absurd h (List.not_mem_nil g)
    · have hgname : g = name_group cfg := by simpa using h
      subst hgname
      rcases name_group_cases cfg with hng | hng <;> rw [hng] at hgit <;>
        exact absurd hgit (by decide)
  · rintro ⟨hd, hfil, hgm⟩
    refine ⟨List.filter (fun col => column_in_details (details_list cfg) col)
      ["git"], ?_, ?_⟩
    · apply List.mem_append_left
      rw [if_pos hd]
      refine List.mem_map.mpr ⟨["git"], ?_, rfl⟩
      unfold detail_col_groups
      rw [hgm, if_pos rfl]
      exact List.mem_append_right _ (List.mem_singleton.mpr rfl)
    · exact List.mem_filter.mpr ⟨List.mem_singleton.mpr rfl, by simpa using hfil⟩

/-- Witness for C7: with `details = ["git"]` and a git-managed directory, the
`"git"` column appears. -/
theorem C7_git_gating_witness :
    "git" ∈ get_columns ⟨some ["git"], IconType.none, false, none, "linux", true⟩ :=
  (C7_git_gating ⟨some ["git"], IconType.none, false, none, "linux", true⟩).mpr
    ⟨rfl, by decide, rfl⟩
